import Mathlib

/-!
# Verification of the dev-clean scanning & classification engine

A shallow embedding of the scanner core of `dev-clean`
(`src/scanner/{walker,detector,size_calculator,mod}.rs`) together with
proofs about it.

Modelling conventions:

* Filesystem paths (`std::path::PathBuf`) are component lists
  (`Path := List String`).  `Path::starts_with` is component-wise prefix,
  `Path::parent` drops the last component, `Path::file_name` is the last
  component.
* Filesystem state and external-crate behaviour are packaged in an `Env`
  oracle: `pathExists` (`Path::exists`), `mtime` (metadata modified-time,
  `none` = I/O error), `dirSize` (the result of the walker's inline
  `calculate_dir_size`, `none` = I/O error), `gitignore`
  (`ProjectDetector::parse_gitignore`, whose definition lives outside the
  sources given here: only its output list is relevant),
  `globMatch` (the `globset` crate's single-glob matcher built with
  `literal_separator(true)`; an invalid pattern matches nothing, which
  models the `Err(_) => …` fallbacks in the source), and `now`
  (`SystemTime::now` / `Utc::now`, in seconds since the epoch).
* Rust byte-string operations are modelled through `String.toList`
  so that everything evaluates by `decide`/`rfl`.
-/

namespace DevClean

/-- A filesystem path as its list of components (PathBuf). -/
abbrev Path := List String

/-! ## Data model (`scanner/mod.rs`) -/

/-- `Category` (scanner/mod.rs). -/
inductive Category where
  | Cache | Build | Deps | Unknown
deriving DecidableEq, Repr

/-- `RiskLevel` (scanner/mod.rs); ordered Low < Medium < High via derived `Ord`. -/
inductive RiskLevel where
  | Low | Medium | High
deriving DecidableEq, Repr

/-- The derived `Ord` on `RiskLevel` orders by declaration index. -/
def RiskLevel.toNat : RiskLevel → Nat
  | .Low => 0
  | .Medium => 1
  | .High => 2

/-- `risk_level > max_risk` comparison from the derived Rust `Ord`. -/
def RiskLevel.gt (a b : RiskLevel) : Bool := b.toNat < a.toNat

/-- `Confidence` (scanner/mod.rs). -/
inductive Confidence where
  | High | Medium | Low | Unknown
deriving DecidableEq, Repr

/-- `RuleSource` (scanner/mod.rs). -/
inductive RuleSource where
  | Custom | Builtin | Gitignore | Heuristic
deriving DecidableEq, Repr

/-- `RuleRef` (scanner/mod.rs). -/
structure RuleRef where
  source : RuleSource
  pattern : String
  name : Option String
deriving DecidableEq, Repr

/-- `ProjectType` (scanner/detector.rs). -/
inductive ProjectType where
  | NodeJs | Rust | Python | Java | Kotlin | Go | C | Cpp | Ruby
  | Swift | Php | Elixir | DotNet | Maven | Gradle | Generic
deriving DecidableEq, Repr

/-- `MarkerMode` (config/mod.rs). -/
inductive MarkerMode where
  | AnyOf | AllOf
deriving DecidableEq, Repr

/-- `CustomPattern` (config/mod.rs). -/
structure CustomPattern where
  name : String
  directory : String
  marker_files : List String
  marker_mode : MarkerMode
deriving DecidableEq, Repr

/-- `ProjectInfo` (scanner/mod.rs).  `last_modified` is seconds since the
epoch (`system_time_to_datetime` collapses pre-epoch times to 0 via
`unwrap_or_default`). -/
structure ProjectInfo where
  root : Path
  project_type : ProjectType
  project_name : Option String
  category : Category
  risk_level : RiskLevel
  confidence : Confidence
  matched_rule : Option RuleRef
  cleanable_dir : Path
  size : Nat
  size_calculated : Bool
  last_modified : Nat
  in_use : Bool
deriving DecidableEq, Repr

/-- `ProjectInfo::new_pending` (scanner/mod.rs): defaults are
category Unknown, risk Medium, confidence Unknown, no rule,
`size = 0`, `size_calculated = false`. -/
def ProjectInfo.new_pending (root : Path) (project_type : ProjectType)
    (cleanable_dir : Path) (last_modified : Nat) (in_use : Bool) : ProjectInfo :=
  { root := root
    project_type := project_type
    project_name := none
    category := .Unknown
    risk_level := .Medium
    confidence := .Unknown
    matched_rule := none
    cleanable_dir := cleanable_dir
    size := 0
    size_calculated := false
    last_modified := last_modified
    in_use := in_use }

/-! ## Rust string operations, modelled over `String.toList` -/

/-- `char::to_ascii_lowercase`. -/
def asciiLower (c : Char) : Char :=
  if 'A' ≤ c ∧ c ≤ 'Z' then Char.ofNat (c.toNat + 32) else c

/-- `str::to_ascii_lowercase`. -/
def lowerAscii (s : String) : String := String.mk (s.toList.map asciiLower)

/-- `str::contains(char)`. -/
def strContainsChar (s : String) (c : Char) : Bool := s.toList.contains c

/-- `str::starts_with(str)`. -/
def strStartsWith (s pre : String) : Bool := pre.toList.isPrefixOf s.toList

/-- `str::ends_with(str)`. -/
def strEndsWith (s suf : String) : Bool := suf.toList.isSuffixOf s.toList

/-- `str::replace(char, char-string)` (character-wise). -/
def replaceChar (s : String) (c r : Char) : String :=
  String.mk (s.toList.map (fun x => if x = c then r else x))

/-- `Path::to_string_lossy` for a relative component list: components
joined by `/`. -/
def joinComponents : List String → String
  | [] => ""
  | [s] => s
  | s :: rest => s ++ "/" ++ joinComponents rest

/-- `normalize_relative_path` (walker.rs): display the relative path and
replace backslashes by slashes. -/
def normalize_relative_path (relative : Path) : String :=
  replaceChar (joinComponents relative) '\\' '/'

/-! ## Environment oracle -/

/-- External state the scanner consults: the filesystem, the gitignore
parser's output, the `globset` matcher semantics, and the clock. -/
structure Env where
  /-- `Path::exists`. -/
  pathExists : Path → Bool
  /-- modified-time metadata in epoch seconds; `none` models an I/O error. -/
  mtime : Path → Option Nat
  /-- result of the walker's inline `calculate_dir_size` (walkdir traversal);
  `none` models an I/O error. -/
  dirSize : Path → Option Nat
  /-- output of `ProjectDetector::parse_gitignore(project_root)`. -/
  gitignore : Path → List String
  /-- single-glob matching of the `globset` crate with
  `literal_separator(true)`: `globMatch pattern text`.  A pattern that fails
  to compile matches nothing. -/
  globMatch : String → String → Bool
  /-- `SystemTime::now` / `Utc::now` in epoch seconds. -/
  now : Nat

/-! ## Ecosystem detector (`scanner/detector.rs`) -/

/-- `ProjectDetector::detect`: first marker match wins, in source order.
The `*.csproj`/`*.sln` checks are the literal (non-glob) `Path::join`
lookups performed by the source. -/
def detect (env : Env) (dir : Path) : Option ProjectType :=
  if env.pathExists (dir ++ ["package.json"]) ∨ env.pathExists (dir ++ ["package-lock.json"]) then
    some .NodeJs
  else if env.pathExists (dir ++ ["Cargo.toml"]) then
    some .Rust
  else if env.pathExists (dir ++ ["requirements.txt"]) ∨ env.pathExists (dir ++ ["setup.py"])
      ∨ env.pathExists (dir ++ ["pyproject.toml"]) ∨ env.pathExists (dir ++ ["Pipfile"]) then
    some .Python
  else if env.pathExists (dir ++ ["pom.xml"]) then
    some .Maven
  else if env.pathExists (dir ++ ["build.gradle"]) ∨ env.pathExists (dir ++ ["build.gradle.kts"]) then
    some .Gradle
  else if env.pathExists (dir ++ ["go.mod"]) then
    some .Go
  else if env.pathExists (dir ++ ["Gemfile"]) then
    some .Ruby
  else if env.pathExists (dir ++ ["Package.swift"]) then
    some .Swift
  else if env.pathExists (dir ++ ["composer.json"]) then
    some .Php
  else if env.pathExists (dir ++ ["mix.exs"]) then
    some .Elixir
  else if env.pathExists (dir ++ ["*.csproj"]) ∨ env.pathExists (dir ++ ["*.sln"]) then
    some .DotNet
  else if env.pathExists (dir ++ ["CMakeLists.txt"]) ∨ env.pathExists (dir ++ ["Makefile"]) then
    some .Cpp
  else
    none

/-- `ProjectDetector::cleanable_dirs`. -/
def cleanable_dirs : ProjectType → List String
  | .NodeJs => ["node_modules", ".next", ".nuxt", "dist", "build", ".cache", ".turbo", ".parcel-cache"]
  | .Rust => ["target"]
  | .Python => [".venv", "venv", "__pycache__", ".pytest_cache", ".mypy_cache", ".tox",
      "*.egg-info", ".eggs", "build", "dist"]
  | .Java | .Maven => ["target", "out"]
  | .Kotlin | .Gradle => ["build", ".gradle", "out"]
  | .Go => ["vendor", "bin"]
  | .C | .Cpp => ["build", "cmake-build-debug", "cmake-build-release", "out"]
  | .Ruby => ["vendor/bundle", ".bundle"]
  | .Swift => [".build", "DerivedData", ".swiftpm"]
  | .Php => ["vendor"]
  | .Elixir => ["_build", "deps"]
  | .DotNet => ["bin", "obj"]
  | .Generic => []

/-- `ProjectDetector::check_recent_lock_files`: a lock file counts when its
mtime is at most `now` and within 7 days (`duration_since` errors for
future mtimes, which skips the file). -/
def check_recent_lock_files (env : Env) (dir : Path) (lock_files : List String) : Bool :=
  lock_files.any fun f =>
    match env.mtime (dir ++ [f]) with
    | some t => decide (t ≤ env.now) && decide (env.now - t < 7 * 24 * 60 * 60)
    | none => false

/-- `ProjectDetector::is_in_use`. -/
def is_in_use (env : Env) (project_dir : Path) : ProjectType → Bool
  | .NodeJs => check_recent_lock_files env project_dir ["package-lock.json", "yarn.lock", "pnpm-lock.yaml"]
  | .Rust => check_recent_lock_files env project_dir ["Cargo.lock"]
  | .Python => check_recent_lock_files env project_dir ["Pipfile.lock", "poetry.lock"]
  | .Go => check_recent_lock_files env project_dir ["go.sum"]
  | .Ruby => check_recent_lock_files env project_dir ["Gemfile.lock"]
  | .Php => check_recent_lock_files env project_dir ["composer.lock"]
  | _ => false

/-- Modelled from the spec: `ProjectDetector::is_cmake_build_dir` is called
by the walker but its definition is not among the given sources.  §4.1:
"`is_cmake_out_of_source(dir)`: true iff `dir` contains a build-cache
marker file but not the corresponding top-level project descriptor", the
marker/descriptor pair being `CMakeCache.txt` / `CMakeLists.txt`
(§8 Scenario B). -/
def is_cmake_build_dir (env : Env) (dir : Path) : Bool :=
  env.pathExists (dir ++ ["CMakeCache.txt"]) && !env.pathExists (dir ++ ["CMakeLists.txt"])

/-! ## Rule registry (`walker.rs`) -/

/-- `pattern_matches` (walker.rs): normalize backslashes, then match the
relative path if the pattern contains a separator, the basename
otherwise.  Glob compilation failure (matching nothing) is part of
`Env.globMatch`. -/
def pattern_matches (env : Env) (pattern basename relative_path : String) : Bool :=
  let pattern := replaceChar pattern '\\' '/'
  if strContainsChar pattern '/' then env.globMatch pattern relative_path
  else env.globMatch pattern basename

/-- `CleanableMatchers` (walker.rs): the two compiled `GlobSet`s are
represented by the merged pattern list they were built from (a `GlobSet`
matches iff one of its globs does). -/
structure CleanableMatchers where
  patterns : List String
  builtin_patterns : List String
  gitignore_patterns : List String
deriving DecidableEq, Repr

/-- `CleanableMatchers::matches`: union of the basename glob set and the
relative-path glob set, i.e. some merged pattern matches. -/
def CleanableMatchers.matches (env : Env) (m : CleanableMatchers)
    (basename relative_path : String) : Bool :=
  m.patterns.any fun p => pattern_matches env p basename relative_path

/-- `CleanableMatchers::matched_rule`: first matching builtin pattern,
then first matching gitignore pattern, else `none`. -/
def CleanableMatchers.matched_rule (env : Env) (m : CleanableMatchers)
    (basename relative_path : String) : Option RuleRef :=
  match m.builtin_patterns.find? (fun p => pattern_matches env p basename relative_path) with
  | some p => some { source := .Builtin, pattern := p, name := none }
  | none =>
    match m.gitignore_patterns.find? (fun p => pattern_matches env p basename relative_path) with
    | some p => some { source := .Gitignore, pattern := p, name := none }
    | none => none

/-- `build_matchers` (walker.rs): builtin patterns plus gitignore patterns
not already present (checked against the growing merged list). -/
def build_matchers (env : Env) (project_type : ProjectType) (project_root : Path) :
    CleanableMatchers :=
  let builtin_patterns := cleanable_dirs project_type
  let gitignore_patterns := env.gitignore project_root
  let patterns := gitignore_patterns.foldl
    (fun acc p => if acc.contains p then acc else acc ++ [p]) builtin_patterns
  { patterns := patterns
    builtin_patterns := builtin_patterns
    gitignore_patterns := gitignore_patterns }

/-- `custom_root_matches` (walker.rs): an empty marker list never matches;
otherwise AnyOf/AllOf over `project_root.join(marker).exists()`
(markers are single path components). -/
def custom_root_matches (env : Env) (project_root : Path) (custom : CustomPattern) : Bool :=
  if custom.marker_files.isEmpty then false
  else
    match custom.marker_mode with
    | .AnyOf => custom.marker_files.any fun marker => env.pathExists (project_root ++ [marker])
    | .AllOf => custom.marker_files.all fun marker => env.pathExists (project_root ++ [marker])

/-! ## Classification policy (`walker.rs`) -/

/-- `classify_category` (walker.rs): fixed lexical table over the
lowercased basename / relative path. -/
def classify_category (basename relative_path : String) : Category :=
  let basename := lowerAscii basename
  let relative_path := lowerAscii relative_path
  if basename = "node_modules" ∨ basename = ".venv" ∨ basename = "venv"
      ∨ basename = "vendor" ∨ basename = "deps" ∨ basename = ".bundle"
      ∨ relative_path = "vendor/bundle"
      ∨ strStartsWith relative_path "vendor/bundle/" then
    .Deps
  else if basename = "__pycache__" ∨ basename = ".pytest_cache" ∨ basename = ".mypy_cache"
      ∨ basename = ".tox" ∨ basename = ".eggs" ∨ basename = ".cache"
      ∨ basename = ".turbo" ∨ basename = ".parcel-cache" then
    .Cache
  else if basename = "target" ∨ basename = "build" ∨ basename = "dist" ∨ basename = "out"
      ∨ basename = "_build" ∨ basename = "deriveddata" ∨ basename = ".build"
      ∨ basename = ".next" ∨ basename = ".nuxt" ∨ basename = "bin" ∨ basename = "obj"
      ∨ strStartsWith basename "cmake-build"
      ∨ strEndsWith basename ".egg-info" then
    .Build
  else
    .Unknown

/-- `default_risk_level` (walker.rs). -/
def default_risk_level : Category → RiskLevel
  | .Cache => .Low
  | .Build => .Medium
  | .Deps => .High
  | .Unknown => .Medium

/-- `risk_for_rule` (walker.rs): Gitignore-sourced rules are always High
risk; otherwise the category default. -/
def risk_for_rule (source : RuleSource) (category : Category) : RiskLevel :=
  match source with
  | .Gitignore => .High
  | _ => default_risk_level category

/-- `confidence_for_rule` (walker.rs). -/
def confidence_for_rule : RuleSource → Confidence
  | .Custom | .Builtin => .High
  | .Heuristic => .Medium
  | .Gitignore => .Low

/-- `apply_matched_rule` (walker.rs). -/
def apply_matched_rule (info : ProjectInfo) (rule : RuleRef)
    (basename relative_path : String) : ProjectInfo :=
  let category := classify_category basename relative_path
  { info with
    category := category
    risk_level := risk_for_rule rule.source category
    confidence := confidence_for_rule rule.source
    matched_rule := some rule }

/-! ## Scanner configuration (`walker.rs`, builder methods)

`exclude_dirs`, `respect_gitignore` and `max_depth` only shape which
directories the `ignore` crate's parallel walk visits; the visited
directories are the explicit `dirs : List Path` input of `collect` below,
so those three fields do not reappear here. -/

/-- The `Scanner` configuration consulted by `check_directory_impl` and
`passes_filters`. -/
structure Scanner where
  root : Path
  min_size : Option Nat
  max_age_days : Option Int
  custom_patterns : List CustomPattern
  category_filter : Option Category
  max_risk : Option RiskLevel

/-! ## Building ProjectInfo (`walker.rs`) -/

/-- `Scanner::build_project_info_fast`: metadata only, pending size. -/
def build_project_info_fast (env : Env) (project_root : Path)
    (project_type : ProjectType) (cleanable_dir : Path) : Option ProjectInfo :=
  match env.mtime cleanable_dir with
  | none => none
  | some last_modified =>
    some (ProjectInfo.new_pending project_root project_type cleanable_dir last_modified
      (is_in_use env project_root project_type))

/-- `Scanner::build_project_info`: inline `calculate_dir_size` (failure
aborts the build), then metadata. -/
def build_project_info (env : Env) (project_root : Path)
    (project_type : ProjectType) (cleanable_dir : Path) : Option ProjectInfo :=
  match env.dirSize cleanable_dir with
  | none => none
  | some size =>
    match env.mtime cleanable_dir with
    | none => none
    | some last_modified =>
      some
        { root := project_root
          project_type := project_type
          project_name := none
          category := .Unknown
          risk_level := .Medium
          confidence := .Unknown
          matched_rule := none
          cleanable_dir := cleanable_dir
          size := size
          size_calculated := true
          last_modified := last_modified
          in_use := is_in_use env project_root project_type }

/-- The `if fast_mode { build_project_info_fast } else { build_project_info }`
selection in `check_directory_impl`. -/
def build_info (env : Env) (fast : Bool) (project_root : Path)
    (project_type : ProjectType) (cleanable_dir : Path) : Option ProjectInfo :=
  if fast then build_project_info_fast env project_root project_type cleanable_dir
  else build_project_info env project_root project_type cleanable_dir

/-! ## check_directory_impl (`walker.rs`) -/

/-- The custom-pattern `for` loop of `check_directory_impl`: the first
pattern whose root predicate and directory glob both hold and whose
`build_project_info` succeeds yields the target; a failed build falls
through to the next pattern. -/
def custom_loop (env : Env) (dir : Path) (dir_name relative_path : String)
    (fast : Bool) (parent : Path) : List CustomPattern → Option ProjectInfo
  | [] => none
  | custom :: rest =>
    if custom_root_matches env parent custom
        && pattern_matches env custom.directory dir_name relative_path then
      match build_info env fast parent .Generic dir with
      | some info =>
        let rule : RuleRef :=
          { source := .Custom, pattern := custom.directory, name := some custom.name }
        let info := apply_matched_rule info rule dir_name relative_path
        some { info with project_name := some custom.name }
      | none => custom_loop env dir dir_name relative_path fast parent rest
    else custom_loop env dir dir_name relative_path fast parent rest

/-- One iteration of the ancestor loop of `check_directory_impl`, for a
given `parent` of `dir`: custom patterns first, then the detected
ecosystem's matcher.  `parent` is always an ancestor of `dir`, so
`dir.strip_prefix(parent)` is `dir.drop parent.length`. -/
def process_parent (env : Env) (cfg : Scanner) (dir : Path) (dir_name : String)
    (fast : Bool) (parent : Path) : Option ProjectInfo :=
  let relative_path := normalize_relative_path (dir.drop parent.length)
  match custom_loop env dir dir_name relative_path fast parent cfg.custom_patterns with
  | some info => some info
  | none =>
    match detect env parent with
    | some project_type =>
      let matchers := build_matchers env project_type parent
      if matchers.matches env dir_name relative_path then
        match build_info env fast parent project_type dir with
        | some info =>
          match matchers.matched_rule env dir_name relative_path with
          | some rule => some (apply_matched_rule info rule dir_name relative_path)
          | none =>
            some { info with
              category := classify_category dir_name relative_path
              risk_level := default_risk_level (classify_category dir_name relative_path) }
        | none => none
      else none
    | none => none

/-- The `while let Some(parent) = current.parent()` ancestor loop of
`check_directory_impl`.  Each parent is processed *before* the
`current.starts_with(&self.root)` bound is tested, exactly as in the
source.  The `fuel` argument only realizes termination: the loop is
entered with `fuel = current.length` and each step shortens `current` by
one component, so fuel never runs out before `current` is empty
(a path without a parent, which ends the Rust loop). -/
def check_loop (env : Env) (cfg : Scanner) (dir : Path) (dir_name : String)
    (fast : Bool) : Nat → Path → Option ProjectInfo
  | 0, _ => none
  | _, [] => none
  | fuel + 1, current@(_ :: _) =>
    let parent := current.dropLast
    match process_parent env cfg dir dir_name fast parent with
    | some info => some info
    | none =>
      if cfg.root.isPrefixOf parent then
        check_loop env cfg dir dir_name fast fuel parent
      else none

/-- The CMake heuristic's upward search for `CMakeLists.txt` in
`check_directory_impl` (same post-tested scan-root bound as the main
loop); on a hit, the target's classification is set literally to
Build / Medium / Medium with the `cmake-out-of-source-build` Heuristic
rule, and a failed `build_project_info` ends the search with no target. -/
def cmake_search (env : Env) (cfg : Scanner) (dir : Path)
    (fast : Bool) : Nat → Path → Option ProjectInfo
  | 0, _ => none
  | _, [] => none
  | fuel + 1, current@(_ :: _) =>
    let parent := current.dropLast
    if env.pathExists (parent ++ ["CMakeLists.txt"]) then
      match build_info env fast parent .Cpp dir with
      | some info =>
        some { info with
          category := .Build
          risk_level := .Medium
          confidence := .Medium
          matched_rule := some
            { source := .Heuristic, pattern := "cmake-out-of-source-build", name := none } }
      | none => none
    else if cfg.root.isPrefixOf parent then
      cmake_search env cfg dir fast fuel parent
    else none

/-- `Scanner::check_directory_impl`. -/
def check_directory_impl (env : Env) (cfg : Scanner) (dir : Path)
    (fast : Bool) : Option ProjectInfo :=
  match dir.getLast? with
  | none => none
  | some dir_name =>
    match check_loop env cfg dir dir_name fast dir.length dir with
    | some info => some info
    | none =>
      if is_cmake_build_dir env dir then cmake_search env cfg dir fast dir.length dir
      else none

/-- `Scanner::check_directory`. -/
def check_directory (env : Env) (cfg : Scanner) (dir : Path) : Option ProjectInfo :=
  check_directory_impl env cfg dir false

/-- `Scanner::check_directory_fast`. -/
def check_directory_fast (env : Env) (cfg : Scanner) (dir : Path) : Option ProjectInfo :=
  check_directory_impl env cfg dir true

/-! ## Filters, dedup, pipelines (`walker.rs`) -/

/-- `ProjectInfo::days_since_modified`: `(now - last_modified).num_days()`,
truncating division toward zero (chrono `Duration::num_days`). -/
def days_since_modified (now last_modified : Nat) : Int :=
  ((now : Int) - (last_modified : Int)).tdiv 86400

/-- `Scanner::passes_filters`. -/
def passes_filters (env : Env) (cfg : Scanner) (info : ProjectInfo) : Bool :=
  (match cfg.min_size with
   | some min_size => !(info.size_calculated && decide (info.size < min_size))
   | none => true)
  && (match cfg.category_filter with
   | some category => decide (info.category = category)
   | none => true)
  && (match cfg.max_risk with
   | some max_risk => !(info.risk_level.gt max_risk)
   | none => true)
  && (match cfg.max_age_days with
   | some max_age => !(decide (days_since_modified env.now info.last_modified < max_age))
   | none => true)

/-- `Scanner::deduplicate_nested_dirs`: keep `info` iff no *other*
candidate (different `cleanable_dir`) has a `cleanable_dir` that is a
component-wise prefix of `info`'s. -/
def deduplicate_nested_dirs (results : List ProjectInfo) : List ProjectInfo :=
  results.filter fun info =>
    !(results.any fun other =>
      if info.cleanable_dir = other.cleanable_dir then false
      else other.cleanable_dir.isPrefixOf info.cleanable_dir)

/-- The walker callbacks of `scan` / `scan_with_streaming`: each visited
directory `d` contributes `check_directory(_fast)(d)` when it passes the
filters.  `dirs` is the (unordered) list of directories the parallel walk
visits; `filterMap` over it models the lock-protected result collector. -/
def collect (env : Env) (cfg : Scanner) (fast : Bool) (dirs : List Path) :
    List ProjectInfo :=
  dirs.filterMap fun d =>
    match check_directory_impl env cfg d fast with
    | some info => if passes_filters env cfg info then some info else none
    | none => none

/-- Stable insertion step for the size-descending sort: `a` goes after
every element of at least its size. -/
def insert_size_desc (a : ProjectInfo) : List ProjectInfo → List ProjectInfo
  | [] => [a]
  | b :: rest =>
    if b.size < a.size then a :: b :: rest else b :: insert_size_desc a rest

/-- The `sort_by(|a, b| b.size.cmp(&a.size))` call: a stable
size-descending sort (Rust `sort_by` is stable), realized as stable
insertion sort. -/
def sort_by_size_desc (l : List ProjectInfo) : List ProjectInfo :=
  l.foldr insert_size_desc []

/-- `Scanner::scan` as a function of the visited directories: collect with
inline sizes, deduplicate, sort size-descending. -/
def scan (env : Env) (cfg : Scanner) (dirs : List Path) : List ProjectInfo :=
  sort_by_size_desc (deduplicate_nested_dirs (collect env cfg false dirs))

/-! ## Size calculator (`scanner/size_calculator.rs`) -/

/-- One `walkdir` entry as seen by `calculate_dir_size_with_timeout`
(entries whose iteration already failed are dropped by the
`filter_map(|e| e.ok())` and do not appear): whether it is a file, and its
metadata length (`none` models a metadata error, which the `?` operator
turns into a function-level error). -/
structure FsEntry where
  is_file : Bool
  len : Option Nat
deriving DecidableEq, Repr

/-- The entry loop of `calculate_dir_size_with_timeout`: `elapsed n` is the
wall-clock reading after `n` entries have been checked, `timeout` the
per-item budget; the clock is consulted every 256 entries and once after
the loop. -/
def calc_loop (elapsed : Nat → Nat) (timeout : Nat) :
    List FsEntry → Nat → Nat → Except Unit Nat
  | [], checked, total =>
    if timeout ≤ elapsed checked then .error () else .ok total
  | e :: rest, checked, total =>
    let checked := checked + 1
    if checked % 256 = 0 ∧ timeout ≤ elapsed checked then .error ()
    else if e.is_file then
      match e.len with
      | none => .error ()
      | some n => calc_loop elapsed timeout rest checked (total + n)
    else calc_loop elapsed timeout rest checked total

/-- `calculate_dir_size_with_timeout` (size_calculator.rs): a zero timeout
errors immediately, before any traversal. -/
def calculate_dir_size_with_timeout (entries : List FsEntry) (elapsed : Nat → Nat)
    (timeout : Nat) : Except Unit Nat :=
  if timeout = 0 then .error ()
  else calc_loop elapsed timeout entries 0 0

/-- The filesystem/clock oracle of one size-calculation batch: the
`walkdir` entries under each directory and the per-directory wall clock. -/
structure SizeEnv where
  entries : Path → List FsEntry
  elapsed : Path → Nat → Nat

/-- The size computation `calculate_batch_streaming` runs for one
directory. -/
def batch_compute (senv : SizeEnv) (timeout : Nat) (dir : Path) : Except Unit Nat :=
  calculate_dir_size_with_timeout (senv.entries dir) (senv.elapsed dir) timeout

/-- The per-project body of `calculate_batch_streaming`: on success the
computed size, on timeout or I/O failure the `size = 0` sentinel; either
way `size_calculated := true` and the record is sent. -/
def size_project (compute : Path → Except Unit Nat) (p : ProjectInfo) : ProjectInfo :=
  match compute p.cleanable_dir with
  | .ok size => { p with size := size, size_calculated := true }
  | .error _ => { p with size := 0, size_calculated := true }

/-- `SizeCalculator::calculate_batch_streaming`: every project is sized and
sent exactly once (first component: the streamed records, one per input);
the returned count (second component) counts only the successes. -/
def calculate_batch_streaming (compute : Path → Except Unit Nat)
    (projects : List ProjectInfo) : List ProjectInfo × Nat :=
  (projects.map (size_project compute),
   (projects.filter fun p => (compute p.cleanable_dir).isOk).length)

/-- `SizeCalculator::calculate_single`: the single-item convenience path,
which propagates the error instead of using the sentinel. -/
def calculate_single (compute : Path → Except Unit Nat) (project : ProjectInfo) :
    Except Unit (ProjectInfo × Nat) :=
  match compute project.cleanable_dir with
  | .ok size => .ok ({ project with size := size, size_calculated := true }, size)
  | .error e => .error e

/-- The pending set of `Scanner::scan_with_streaming`: fast collection then
deduplication, before sizes are computed. -/
def scan_pending (env : Env) (cfg : Scanner) (dirs : List Path) : List ProjectInfo :=
  deduplicate_nested_dirs (collect env cfg true dirs)

/-- `Scanner::scan_with_streaming`: the returned total count and the records
streamed by the spawned `SizeCalculator::new()` batch (default 60 s
timeout). -/
def scan_with_streaming (env : Env) (cfg : Scanner) (dirs : List Path)
    (senv : SizeEnv) : Nat × (List ProjectInfo × Nat) :=
  let pending := scan_pending env cfg dirs
  (pending.length, calculate_batch_streaming (batch_compute senv 60) pending)

/-! ## Helper lemmas -/

@[simp] theorem apply_matched_rule_root (info : ProjectInfo) (rule : RuleRef)
    (b p : String) : (apply_matched_rule info rule b p).root = info.root := rfl

@[simp] theorem apply_matched_rule_cleanable_dir (info : ProjectInfo) (rule : RuleRef)
    (b p : String) :
    (apply_matched_rule info rule b p).cleanable_dir = info.cleanable_dir := rfl

@[simp] theorem apply_matched_rule_size_calculated (info : ProjectInfo) (rule : RuleRef)
    (b p : String) :
    (apply_matched_rule info rule b p).size_calculated = info.size_calculated := rfl

@[simp] theorem apply_matched_rule_matched_rule (info : ProjectInfo) (rule : RuleRef)
    (b p : String) : (apply_matched_rule info rule b p).matched_rule = some rule := rfl

@[simp] theorem apply_matched_rule_category (info : ProjectInfo) (rule : RuleRef)
    (b p : String) :
    (apply_matched_rule info rule b p).category = classify_category b p := rfl

@[simp] theorem apply_matched_rule_risk_level (info : ProjectInfo) (rule : RuleRef)
    (b p : String) :
    (apply_matched_rule info rule b p).risk_level
      = risk_for_rule rule.source (classify_category b p) := rfl

@[simp] theorem apply_matched_rule_confidence (info : ProjectInfo) (rule : RuleRef)
    (b p : String) :
    (apply_matched_rule info rule b p).confidence = confidence_for_rule rule.source := rfl

/-- Both project-info builders produce a record rooted at the given project
root, pointing at the given cleanable directory, with no matched rule, and
(in fast mode) with the size still pending. -/
theorem build_info_emits {env : Env} {fast : Bool} {root : Path} {pt : ProjectType}
    {dir : Path} {base : ProjectInfo} (h : build_info env fast root pt dir = some base) :
    base.root = root ∧ base.cleanable_dir = dir ∧ base.matched_rule = none
      ∧ (fast = true → base.size_calculated = false) := by
  cases fast with
  | true =>
    simp only [build_info, if_true] at h
    unfold build_project_info_fast at h
    split at h
    · exact absurd h (by simp)
    · cases h
      simp [ProjectInfo.new_pending]
  | false =>
    simp only [build_info, if_false, Bool.false_eq_true] at h
    unfold build_project_info at h
    split at h
    · exact absurd h (by simp)
    · split at h
      · exact absurd h (by simp)
      · cases h
        simp

/-- `CleanableMatchers.matched_rule` only attributes builtin or gitignore
sources. -/
theorem matched_rule_source {env : Env} {m : CleanableMatchers} {bn rp : String}
    {r : RuleRef} (h : m.matched_rule env bn rp = some r) :
    r.source = .Builtin ∨ r.source = .Gitignore := by
  unfold CleanableMatchers.matched_rule at h
  split at h
  · cases h; left; rfl
  · split at h
    · cases h; right; rfl
    · exact absurd h (by simp)

/-- What a successful `custom_loop` emits: the first matching custom
pattern, whose root predicate held at `parent`, applied to a successful
build. -/
theorem custom_loop_emits {env : Env} {dir : Path} {dn rel : String} {fast : Bool}
    {parent : Path} {info : ProjectInfo} :
    ∀ {cs : List CustomPattern}, custom_loop env dir dn rel fast parent cs = some info →
    ∃ c ∈ cs, custom_root_matches env parent c = true
      ∧ pattern_matches env c.directory dn rel = true
      ∧ ∃ base, build_info env fast parent .Generic dir = some base
        ∧ info = { apply_matched_rule base
            { source := .Custom, pattern := c.directory, name := some c.name } dn rel with
            project_name := some c.name } := by
  intro cs
  induction cs with
  | nil => intro h; exact absurd h (by simp [custom_loop])
  | cons c rest ih =>
    intro h
    unfold custom_loop at h
    split at h
    · rename_i hcond
      rw [Bool.and_eq_true] at hcond
      split at h
      · rename_i base hbase
        cases h
        exact ⟨c, by simp, hcond.1, hcond.2, base, hbase, rfl⟩
      · obtain ⟨c', hc', rest'⟩ := ih h
        exact ⟨c', by simp [hc'], rest'⟩
    · obtain ⟨c', hc', rest'⟩ := ih h
      exact ⟨c', by simp [hc'], rest'⟩

/-- Everything a successful `process_parent` guarantees about the emitted
record: its location fields, pending size in fast mode, the risk/confidence
policy, and—when the attributed source is Custom—a configured pattern whose
root predicate held at `parent`. -/
theorem process_parent_emits {env : Env} {cfg : Scanner} {dir : Path} {dn : String}
    {fast : Bool} {parent : Path} {info : ProjectInfo}
    (h : process_parent env cfg dir dn fast parent = some info) :
    info.cleanable_dir = dir ∧ info.root = parent
      ∧ (fast = true → info.size_calculated = false)
      ∧ (∀ r, info.matched_rule = some r →
          info.risk_level = risk_for_rule r.source info.category
          ∧ info.confidence = confidence_for_rule r.source
          ∧ (r.source = .Custom →
              ∃ c ∈ cfg.custom_patterns, custom_root_matches env parent c = true
                ∧ r.pattern = c.directory ∧ r.name = some c.name)) := by
  simp only [process_parent] at h
  split at h
  · rename_i info' hcl
    cases h
    obtain ⟨c, hc, hroot, hpat, base, hbase, hinfo⟩ := custom_loop_emits hcl
    obtain ⟨hbr, hbd, hbm, hbs⟩ := build_info_emits hbase
    subst hinfo
    refine ⟨by simp [hbd], by simp [hbr], by intro hf; simpa using hbs hf, ?_⟩
    intro r hr
    simp only at hr
    cases hr
    exact ⟨rfl, rfl, fun _ => ⟨c, hc, hroot, rfl, rfl⟩⟩
  · split at h
    · rename_i pt hdet
      split at h
      · split at h
        · rename_i base hbase
          obtain ⟨hbr, hbd, hbm, hbs⟩ := build_info_emits hbase
          split at h
          · rename_i rule hrule
            cases h
            refine ⟨by simp [hbd], by simp [hbr], by intro hf; simpa using hbs hf, ?_⟩
            intro r hr
            simp only [apply_matched_rule_matched_rule, Option.some.injEq] at hr
            subst hr
            refine ⟨rfl, rfl, fun hsrc => ?_⟩
            rcases matched_rule_source hrule with h' | h' <;> rw [hsrc] at h' <;> cases h'
          · cases h
            refine ⟨hbd, hbr, fun hf => hbs hf, ?_⟩
            intro r hr
            rw [show ({ base with
                category := classify_category dn
                  (normalize_relative_path (dir.drop parent.length))
                risk_level := default_risk_level (classify_category dn
                  (normalize_relative_path (dir.drop parent.length))) } :
                ProjectInfo).matched_rule = base.matched_rule from rfl, hbm] at hr
            cases hr
        · exact absurd h (by simp)
      · exact absurd h (by simp)
    · exact absurd h (by simp)

/-- Which ancestors the `while let Some(parent)` loop can attribute: the
emitted record comes from `process_parent` at some proper prefix `parent`
of `current`, and either `parent` is the immediate parent or the one-longer
prefix it was reached through lies under the scan root (the bound is tested
only *after* an ancestor is processed). -/
theorem check_loop_emits {env : Env} {cfg : Scanner} {dir : Path} {dn : String}
    {fast : Bool} :
    ∀ fuel (cur : Path) (info : ProjectInfo),
      check_loop env cfg dir dn fast fuel cur = some info →
      ∃ parent, process_parent env cfg dir dn fast parent = some info
        ∧ parent <+: cur ∧ parent.length < cur.length
        ∧ (parent.length + 1 = cur.length ∨ cfg.root <+: cur.take (parent.length + 1)) := by
  intro fuel
  induction fuel with
  | zero => intro cur info h; exact absurd h (by simp [check_loop])
  | succ n ih =>
    intro cur info h
    match cur with
    | [] => exact absurd h (by simp [check_loop])
    | a :: rest =>
      simp only [check_loop] at h
      split at h
      · cases h
        refine ⟨(a :: rest).dropLast, by assumption, List.dropLast_prefix _, ?_, ?_⟩
        · simp [List.length_dropLast]
        · left
          simp [List.length_dropLast]
      · split at h
        · rename_i hin
          obtain ⟨p, hp, hpre, hlen, hdisj⟩ := ih _ info h
          have hdl : ((a :: rest).dropLast : Path) = (a :: rest).take ((a :: rest).length - 1) :=
            List.dropLast_eq_take _
          refine ⟨p, hp, hpre.trans (List.dropLast_prefix _), ?_, ?_⟩
          · calc p.length < ((a :: rest).dropLast).length := hlen
              _ ≤ (a :: rest).length := by simp [List.length_dropLast]
          · rcases hdisj with hd | hd
            · right
              rw [List.isPrefixOf_iff_prefix] at hin
              have : (a :: rest).take (p.length + 1) = (a :: rest).dropLast := by
                rw [hd, List.length_dropLast]
                exact hdl.symm
              rw [this]
              exact hin
            · right
              have hle : p.length + 1 ≤ ((a :: rest).dropLast).length := hlen
              rw [List.length_dropLast] at hle
              rw [hdl, List.take_take, Nat.min_eq_left hle] at hd
              exact hd
        · exact absurd h (by simp)

/-- The analogous characterization for the CMake heuristic's upward
search, together with the fields it sets literally. -/
theorem cmake_search_emits {env : Env} {cfg : Scanner} {dir : Path} {fast : Bool} :
    ∀ fuel (cur : Path) (info : ProjectInfo),
      cmake_search env cfg dir fast fuel cur = some info →
      ∃ parent, env.pathExists (parent ++ ["CMakeLists.txt"]) = true
        ∧ info.cleanable_dir = dir ∧ info.root = parent
        ∧ (fast = true → info.size_calculated = false)
        ∧ info.matched_rule = some
            { source := .Heuristic, pattern := "cmake-out-of-source-build", name := none }
        ∧ info.category = .Build ∧ info.risk_level = .Medium ∧ info.confidence = .Medium
        ∧ parent <+: cur ∧ parent.length < cur.length
        ∧ (parent.length + 1 = cur.length ∨ cfg.root <+: cur.take (parent.length + 1)) := by
  intro fuel
  induction fuel with
  | zero => intro cur info h; exact absurd h (by simp [cmake_search])
  | succ n ih =>
    intro cur info h
    match cur with
    | [] => exact absurd h (by simp [cmake_search])
    | a :: rest =>
      simp only [cmake_search] at h
      split at h
      · rename_i hcm
        split at h
        · rename_i base hbase
          cases h
          obtain ⟨hbr, hbd, _, hbs⟩ := build_info_emits hbase
          refine ⟨(a :: rest).dropLast, hcm, by simpa using hbd, by simpa using hbr,
            by intro hf; simpa using hbs hf, rfl, rfl, rfl, rfl,
            List.dropLast_prefix _, by simp [List.length_dropLast], ?_⟩
          left
          simp [List.length_dropLast]
        · exact absurd h (by simp)
      · split at h
        · rename_i hin
          obtain ⟨p, hcm, h1, h2, h3, h4, h5, h6, h7, hpre, hlen, hdisj⟩ := ih _ info h
          have hdl : ((a :: rest).dropLast : Path) = (a :: rest).take ((a :: rest).length - 1) :=
            List.dropLast_eq_take _
          refine ⟨p, hcm, h1, h2, h3, h4, h5, h6, h7,
            hpre.trans (List.dropLast_prefix _), ?_, ?_⟩
          · calc p.length < ((a :: rest).dropLast).length := hlen
              _ ≤ (a :: rest).length := by simp [List.length_dropLast]
          · rcases hdisj with hd | hd
            · right
              rw [List.isPrefixOf_iff_prefix] at hin
              have : (a :: rest).take (p.length + 1) = (a :: rest).dropLast := by
                rw [hd, List.length_dropLast]
                exact hdl.symm
              rw [this]
              exact hin
            · right
              have hle : p.length + 1 ≤ ((a :: rest).dropLast).length := hlen
              rw [List.length_dropLast] at hle
              rw [hdl, List.take_take, Nat.min_eq_left hle] at hd
              exact hd
        · exact absurd h (by simp)

/-- Master emission lemma for `check_directory_impl`: location of the
emitted record, the ancestor bound, pending size in fast mode, the
risk/confidence policy, and the origin of Custom attributions. -/
theorem check_directory_impl_emits {env : Env} {cfg : Scanner} {dir : Path}
    {fast : Bool} {info : ProjectInfo}
    (h : check_directory_impl env cfg dir fast = some info) :
    info.cleanable_dir = dir
      ∧ (fast = true → info.size_calculated = false)
      ∧ info.root <+: dir ∧ info.root.length < dir.length
      ∧ (info.root.length + 1 = dir.length ∨ cfg.root <+: dir.take (info.root.length + 1))
      ∧ (∀ r, info.matched_rule = some r →
          info.risk_level = risk_for_rule r.source info.category
          ∧ info.confidence = confidence_for_rule r.source
          ∧ (r.source = .Custom →
              ∃ c ∈ cfg.custom_patterns, custom_root_matches env info.root c = true
                ∧ r.pattern = c.directory ∧ r.name = some c.name)) := by
  unfold check_directory_impl at h
  split at h
  · exact absurd h (by simp)
  · split at h
    · rename_i info' hloop
      cases h
      obtain ⟨p, hp, hpre, hlen, hdisj⟩ := check_loop_emits _ _ _ hloop
      obtain ⟨h1, h2, h3, h4⟩ := process_parent_emits hp
      subst h2
      exact ⟨h1, h3, hpre, hlen, hdisj, h4⟩
    · split at h
      · obtain ⟨p, _, h1, h2, h3, h4, h5, h6, h7, hpre, hlen, hdisj⟩ :=
          cmake_search_emits _ _ _ h
        subst h2
        refine ⟨h1, h3, hpre, hlen, hdisj, ?_⟩
        intro r hr
        rw [h4] at hr
        cases hr
        rw [h5, h6, h7]
        exact ⟨rfl, rfl, by intro hc; cases hc⟩
      · exact absurd h (by simp)

@[simp] theorem size_project_cleanable_dir (compute : Path → Except Unit Nat)
    (p : ProjectInfo) : (size_project compute p).cleanable_dir = p.cleanable_dir := by
  unfold size_project
  split <;> rfl

@[simp] theorem size_project_size_calculated (compute : Path → Except Unit Nat)
    (p : ProjectInfo) : (size_project compute p).size_calculated = true := by
  unfold size_project
  split <;> rfl

theorem mem_insert_size_desc {a b : ProjectInfo} :
    ∀ {l : List ProjectInfo}, a ∈ insert_size_desc b l ↔ a = b ∨ a ∈ l := by
  intro l
  induction l with
  | nil => simp [insert_size_desc]
  | cons c rest ih =>
    unfold insert_size_desc
    split
    · simp [or_comm, or_assoc, or_left_comm]
    · simp only [List.mem_cons, ih]
      tauto

theorem mem_sort_by_size_desc {a : ProjectInfo} :
    ∀ {l : List ProjectInfo}, a ∈ sort_by_size_desc l ↔ a ∈ l := by
  intro l
  induction l with
  | nil => simp [sort_by_size_desc]
  | cons c rest ih =>
    simp only [sort_by_size_desc, List.foldr_cons, List.mem_cons]
    rw [show (List.foldr insert_size_desc [] rest) = sort_by_size_desc rest from rfl] at *
    rw [mem_insert_size_desc, ih]

/-- Membership in the deduplicated list: kept iff present and no *other*
candidate's `cleanable_dir` is a proper ancestor. -/
theorem mem_deduplicate {results : List ProjectInfo} {info : ProjectInfo} :
    info ∈ deduplicate_nested_dirs results ↔
      info ∈ results ∧ ∀ other ∈ results,
        other.cleanable_dir ≠ info.cleanable_dir →
          ¬ other.cleanable_dir <+: info.cleanable_dir := by
  unfold deduplicate_nested_dirs
  rw [List.mem_filter]
  constructor
  · rintro ⟨h1, h2⟩
    refine ⟨h1, fun other ho hne hpre => ?_⟩
    rw [Bool.not_eq_true', List.any_eq_false] at h2
    have h3 := h2 other ho
    rw [if_neg (fun he => hne (by rw [he]))] at h3
    exact h3 (List.isPrefixOf_iff_prefix.mpr hpre)
  · rintro ⟨h1, h2⟩
    refine ⟨h1, ?_⟩
    rw [Bool.not_eq_true', List.any_eq_false]
    intro other ho
    by_cases hd : info.cleanable_dir = other.cleanable_dir
    · simp [hd]
    · rw [if_neg hd]
      intro hpre
      exact h2 other ho (fun he => hd he.symm) (List.isPrefixOf_iff_prefix.mp hpre)

/-- Membership in the walk's collected candidates. -/
theorem mem_collect {env : Env} {cfg : Scanner} {fast : Bool} {dirs : List Path}
    {info : ProjectInfo} :
    info ∈ collect env cfg fast dirs ↔
      ∃ d ∈ dirs, check_directory_impl env cfg d fast = some info
        ∧ passes_filters env cfg info = true := by
  unfold collect
  rw [List.mem_filterMap]
  constructor
  · rintro ⟨d, hd, hf⟩
    cases hc : check_directory_impl env cfg d fast with
    | none => rw [hc] at hf; cases hf
    | some i =>
      rw [hc] at hf
      have hf' : (if passes_filters env cfg i = true then some i else none) = some info := hf
      by_cases hp : passes_filters env cfg i = true
      · rw [if_pos hp] at hf'
        cases hf'
        exact ⟨d, hd, hc, hp⟩
      · rw [if_neg hp] at hf'
        cases hf'
  · rintro ⟨d, hd, hc, hp⟩
    refine ⟨d, hd, ?_⟩
    rw [hc]
    show (if passes_filters env cfg info = true then some info else none) = some info
    rw [if_pos hp]

/-! ## Concrete instances used by witnesses and counterexamples

`litGlob` is `globset` matching restricted to patterns without
metacharacters, where a glob matches exactly its literal text. -/

/-- Literal glob semantics: for metacharacter-free patterns (all patterns
used in the concrete instances below) the `globset` matcher matches
exactly the pattern text. -/
def litGlob : String → String → Bool := fun p s => p == s

/-- A tree with one Node.js project `r/proj` whose `node_modules` exists
(§8 Scenario A). -/
def nodeEnv : Env where
  pathExists := fun p => p ∈ [["r", "proj", "package.json"]]
  mtime := fun _ => some 100
  dirSize := fun _ => some 5
  gitignore := fun _ => []
  globMatch := litGlob
  now := 10 ^ 9

/-- Scan rooted at `r` with no filters and no custom patterns. -/
def nodeCfg : Scanner where
  root := ["r"]
  min_size := none
  max_age_days := none
  custom_patterns := []
  category_filter := none
  max_risk := none

/-- A trivial size-calculation world: every directory empty, clock stuck
at 0. -/
def emptySizeEnv : SizeEnv where
  entries := fun _ => []
  elapsed := fun _ _ => 0

/-- A pending `.venv` target. -/
def pyTop : ProjectInfo :=
  ProjectInfo.new_pending ["p"] .Python ["p", ".venv"] 0 false

/-- A pending `__pycache__` target nested below `pyTop`'s directory. -/
def pyNested : ProjectInfo :=
  ProjectInfo.new_pending ["p"] .Python
    ["p", ".venv", "lib", "site-packages", "__pycache__"] 0 false

/-! ## Claims -/

/-- **C1**: the deduplicator drops a candidate iff another candidate's
`cleanable_dir` is a proper component-wise prefix (ancestor) of its own,
so in both the synchronous and the streaming result collections no two
targets with distinct `cleanable_dir`s are in an ancestor/descendant
relationship — only topmost targets survive. -/
theorem deduplicate_drops_exactly_nested (env : Env) (cfg : Scanner) (dirs : List Path)
    (senv : SizeEnv) (results : List ProjectInfo) :
    (∀ info, info ∈ deduplicate_nested_dirs results ↔
      info ∈ results ∧ ∀ other ∈ results,
        other.cleanable_dir ≠ info.cleanable_dir →
          ¬ other.cleanable_dir <+: info.cleanable_dir)
    ∧ (∀ a ∈ scan env cfg dirs, ∀ b ∈ scan env cfg dirs,
        a.cleanable_dir ≠ b.cleanable_dir → ¬ a.cleanable_dir <+: b.cleanable_dir)
    ∧ (∀ a ∈ (scan_with_streaming env cfg dirs senv).2.1,
        ∀ b ∈ (scan_with_streaming env cfg dirs senv).2.1,
        a.cleanable_dir ≠ b.cleanable_dir → ¬ a.cleanable_dir <+: b.cleanable_dir) := by
  refine ⟨fun info => mem_deduplicate, ?_, ?_⟩
  · intro a ha b hb hne
    rw [scan, mem_sort_by_size_desc, mem_deduplicate] at ha hb
    exact hb.2 a ha.1 hne
  · intro a ha b hb hne
    simp only [scan_with_streaming, calculate_batch_streaming] at ha hb
    rw [List.mem_map] at ha hb
    obtain ⟨a', ha', rfl⟩ := ha
    obtain ⟨b', hb', rfl⟩ := hb
    simp only [size_project_cleanable_dir] at hne ⊢
    rw [scan_pending, mem_deduplicate] at ha' hb'
    exact hb'.2 a' ha'.1 hne

/-- Witness for C1 at a concrete candidate pair: the nested `__pycache__`
candidate is dropped, the containing `.venv` candidate survives. -/
theorem deduplicate_drops_exactly_nested_witness :
    pyNested ∉ deduplicate_nested_dirs [pyTop, pyNested]
    ∧ pyTop ∈ deduplicate_nested_dirs [pyTop, pyNested] := by
  have h := deduplicate_drops_exactly_nested nodeEnv nodeCfg [] emptySizeEnv
    [pyTop, pyNested]
  constructor
  · intro hmem
    have h2 := ((h.1 pyNested).mp hmem).2 pyTop (by decide) (by decide)
    exact h2 (by decide)
  · exact (h.1 pyTop).mpr ⟨by decide, by decide⟩

/-- **C8**: the scan result is deterministic as a set — for any two runs
whose (unordered) visited-directory collections are permutations of one
another, the sets of `(cleanable_dir, category, risk_level)` tuples
coincide. -/
theorem scan_set_deterministic (env : Env) (cfg : Scanner) (dirs₁ dirs₂ : List Path)
    (hperm : dirs₁.Perm dirs₂) (t : Path × Category × RiskLevel) :
    (t ∈ (scan env cfg dirs₁).map fun i => (i.cleanable_dir, i.category, i.risk_level))
      ↔ (t ∈ (scan env cfg dirs₂).map fun i => (i.cleanable_dir, i.category, i.risk_level)) := by
  have hmem : ∀ i : ProjectInfo,
      i ∈ collect env cfg false dirs₁ ↔ i ∈ collect env cfg false dirs₂ := by
    intro i
    rw [mem_collect, mem_collect]
    constructor <;> rintro ⟨d, hd, h⟩
    · exact ⟨d, hperm.mem_iff.mp hd, h⟩
    · exact ⟨d, hperm.mem_iff.mpr hd, h⟩
  have hded : ∀ i : ProjectInfo,
      i ∈ deduplicate_nested_dirs (collect env cfg false dirs₁)
        ↔ i ∈ deduplicate_nested_dirs (collect env cfg false dirs₂) := by
    intro i
    rw [mem_deduplicate, mem_deduplicate]
    constructor <;> rintro ⟨h1, h2⟩
    · exact ⟨(hmem i).mp h1, fun o ho => h2 o ((hmem o).mpr ho)⟩
    · exact ⟨(hmem i).mpr h1, fun o ho => h2 o ((hmem o).mp ho)⟩
  rw [List.mem_map, List.mem_map]
  constructor <;> rintro ⟨i, hi, rfl⟩
  · exact ⟨i, by rw [scan, mem_sort_by_size_desc] at hi ⊢; exact (hded i).mp hi, rfl⟩
  · exact ⟨i, by rw [scan, mem_sort_by_size_desc] at hi ⊢; exact (hded i).mpr hi, rfl⟩

/-- Witness for C8: two concrete runs visiting the same directories in
opposite order classify the same tuple set. -/
theorem scan_set_deterministic_witness :
    ((["r", "proj", "node_modules"], Category.Deps, RiskLevel.High)
        ∈ (scan nodeEnv nodeCfg [["r", "proj"], ["r", "proj", "node_modules"]]).map
          fun i => (i.cleanable_dir, i.category, i.risk_level))
      ↔ ((["r", "proj", "node_modules"], Category.Deps, RiskLevel.High)
        ∈ (scan nodeEnv nodeCfg [["r", "proj", "node_modules"], ["r", "proj"]]).map
          fun i => (i.cleanable_dir, i.category, i.risk_level)) :=
  scan_set_deterministic nodeEnv nodeCfg _ _ (by decide) _

/-- A CMake project at `u/proj` whose out-of-source build directory
`u/proj/build` is used as the scan root. -/
def cmakeOutsideEnv : Env where
  pathExists := fun p => p ∈ [["u", "proj", "CMakeLists.txt"]]
  mtime := fun _ => some 100
  dirSize := fun _ => some 5
  gitignore := fun _ => []
  globMatch := litGlob
  now := 10 ^ 9

/-- Scan rooted at the build directory itself. -/
def cmakeOutsideCfg : Scanner where
  root := ["u", "proj", "build"]
  min_size := none
  max_age_days := none
  custom_patterns := []
  category_filter := none
  max_risk := none

/-- **C5** (amended): for every emitted target, `cleanable_dir` is the
visited directory (hence under the scan root) and lies strictly under the
target's `root`; the attributed `root`, however, is only bounded by the
scan root *or its immediate parent*, because the upward walk tests the
`starts_with(scan root)` bound after processing each ancestor. -/
theorem scan_root_bound (env : Env) (cfg : Scanner) (dir : Path) (fast : Bool)
    (info : ProjectInfo) (hroot : cfg.root <+: dir)
    (h : check_directory_impl env cfg dir fast = some info) :
    info.cleanable_dir = dir
    ∧ cfg.root <+: info.cleanable_dir
    ∧ info.root <+: info.cleanable_dir ∧ info.root ≠ info.cleanable_dir
    ∧ (cfg.root <+: info.root ∨ info.root = cfg.root.dropLast) := by
  obtain ⟨h1, _, hpre, hlen, hdisj, _⟩ := check_directory_impl_emits h
  subst h1
  refine ⟨rfl, hroot, hpre, fun he => by rw [he] at hlen; omega, ?_⟩
  rcases hdisj with hd | hd
  · by_cases hc : cfg.root.length ≤ info.root.length
    · exact Or.inl (List.prefix_of_prefix_length_le hroot hpre hc)
    · right
      have hsn : cfg.root.length ≤ info.cleanable_dir.length := hroot.length_le
      have hsr : cfg.root = info.cleanable_dir := hroot.eq_of_length (by omega)
      rw [hsr, List.dropLast_eq_take, (List.prefix_iff_eq_take).mp hpre]
      congr 1
      omega
  · by_cases hc : cfg.root.length ≤ info.root.length
    · exact Or.inl (List.prefix_of_prefix_length_le hroot hpre hc)
    · right
      have hlt : info.root.length + 1 ≤ info.cleanable_dir.length := hlen
      have hlen2 : (info.cleanable_dir.take (info.root.length + 1)).length
          = info.root.length + 1 := by
        rw [List.length_take]
        omega
      have hsl : cfg.root.length ≤ info.root.length + 1 := by
        have h' := hd.length_le
        rwa [hlen2] at h'
      have hsr : cfg.root = info.cleanable_dir.take (info.root.length + 1) :=
        hd.eq_of_length (by omega)
      rw [hsr, List.dropLast_eq_take, hlen2, Nat.add_sub_cancel, List.take_take,
        Nat.min_eq_left (Nat.le_succ _)]
      exact (List.prefix_iff_eq_take).mp hpre

/-- Witness for the amended C5 on §8 Scenario A: the `node_modules`
target's root `r/proj` lies under the scan root `r`. -/
theorem scan_root_bound_witness :
    ∃ info, check_directory_impl nodeEnv nodeCfg ["r", "proj", "node_modules"] false
        = some info
      ∧ info.cleanable_dir = ["r", "proj", "node_modules"]
      ∧ (nodeCfg.root <+: info.root ∨ info.root = nodeCfg.root.dropLast) := by
  cases hinfo : check_directory_impl nodeEnv nodeCfg ["r", "proj", "node_modules"] false with
  | none => exact absurd hinfo (by decide)
  | some info =>
    have h := scan_root_bound nodeEnv nodeCfg ["r", "proj", "node_modules"] false info
      (by decide) hinfo
    exact ⟨info, rfl, h.1, h.2.2.2.2⟩

/-- Counterexample to C5 as stated: with the scan rooted at the CMake
build directory `u/proj/build` itself, the emitted target's root is
`u/proj` — *outside* the scan root (the ancestor walk processes each
parent before testing the scan-root bound). -/
theorem scan_root_bound_counterexample :
    (check_directory_impl cmakeOutsideEnv cmakeOutsideCfg ["u", "proj", "build"] true).map
        ProjectInfo.root = some ["u", "proj"]
    ∧ ¬ cmakeOutsideCfg.root <+: (["u", "proj"] : Path) := by
  exact ⟨by decide, by decide⟩

/-- If some custom pattern in the list matches (root predicate and glob)
and the build succeeds, the custom `for` loop emits a target. -/
theorem custom_loop_finds {env : Env} {dir : Path} {dn rel : String} {fast : Bool}
    {parent : Path} {c : CustomPattern} :
    ∀ {cs : List CustomPattern}, c ∈ cs →
      custom_root_matches env parent c = true →
      pattern_matches env c.directory dn rel = true →
      (build_info env fast parent .Generic dir).isSome = true →
      (custom_loop env dir dn rel fast parent cs).isSome = true := by
  intro cs
  induction cs with
  | nil => intro hc; cases hc
  | cons c' rest ih =>
    intro hc h1 h2 hb
    unfold custom_loop
    split
    · cases hbase : build_info env fast parent .Generic dir with
      | none => simp [hbase] at hb
      | some base => rfl
    · rename_i hcond
      rcases List.mem_cons.mp hc with rfl | hc'
      · exact absurd (by simp [h1, h2]) hcond
      · exact ih hc' h1 h2 hb

/-- At any single ancestor, a matching custom pattern takes precedence:
`process_parent` then emits a Custom-sourced target, whatever the detected
ecosystem's matcher would have said. -/
theorem process_parent_custom_wins {env : Env} {cfg : Scanner} {dir : Path}
    {dn : String} {fast : Bool} {parent : Path} {c : CustomPattern}
    (hc : c ∈ cfg.custom_patterns)
    (h1 : custom_root_matches env parent c = true)
    (h2 : pattern_matches env c.directory dn
      (normalize_relative_path (dir.drop parent.length)) = true)
    (hb : (build_info env fast parent .Generic dir).isSome = true) :
    ∃ info r, process_parent env cfg dir dn fast parent = some info
      ∧ info.matched_rule = some r ∧ r.source = .Custom := by
  have hs := custom_loop_finds hc h1 h2 hb
  cases hcl : custom_loop env dir dn (normalize_relative_path (dir.drop parent.length))
      fast parent cfg.custom_patterns with
  | none => rw [hcl] at hs; cases hs
  | some info =>
    obtain ⟨c', _, _, _, base, hbase, hinfo⟩ := custom_loop_emits hcl
    refine ⟨info, { source := .Custom, pattern := c'.directory, name := some c'.name },
      ?_, ?_, rfl⟩
    · simp only [process_parent, hcl]
    · rw [hinfo]
      rfl

/-- A Cpp project at `h/proj/sub` (CMakeLists.txt) nested inside a tree
whose root `h/proj` carries the marker file `m` of a custom pattern. -/
def farCustomEnv : Env where
  pathExists := fun p => p ∈ [["h", "proj", "m"], ["h", "proj", "sub", "CMakeLists.txt"]]
  mtime := fun _ => some 100
  dirSize := fun _ => some 5
  gitignore := fun _ => []
  globMatch := litGlob
  now := 10 ^ 9

/-- A custom pattern for `build` directories gated on the marker `m`. -/
def farCustom : CustomPattern :=
  { name := "X", directory := "build", marker_files := ["m"], marker_mode := .AnyOf }

/-- Scan rooted at `h` with the single custom pattern `farCustom`. -/
def farCustomCfg : Scanner where
  root := ["h"]
  min_size := none
  max_age_days := none
  custom_patterns := [farCustom]
  category_filter := none
  max_risk := none

/-- Same tree, but the custom marker `m` placed at `h/proj/sub` itself, so
custom and builtin match at the same ancestor. -/
def nearCustomEnv : Env where
  pathExists := fun p =>
    p ∈ [["h", "proj", "sub", "m"], ["h", "proj", "sub", "CMakeLists.txt"]]
  mtime := fun _ => some 100
  dirSize := fun _ => some 5
  gitignore := fun _ => []
  globMatch := litGlob
  now := 10 ^ 9

/-- **C2** (amended): precedence is resolved per ancestor, nearest first.
At any single ancestor a matching custom pattern (root predicate satisfied
there) beats the detected ecosystem's matcher, so in particular a custom
match at the directory's immediate parent always yields
`matched_rule.source == Custom`; and within an ecosystem's
`matched_rule`, a builtin pattern always beats a gitignore-derived one —
a Gitignore attribution is only possible when no builtin pattern's text
matches.  (A builtin match at a *nearer* ancestor, however, beats a custom
pattern whose root predicate only holds farther up; see the
counterexample.) -/
theorem rule_precedence (env : Env) (cfg : Scanner) (dir : Path) (dn : String)
    (fast : Bool) (c : CustomPattern)
    (hname : dir.getLast? = some dn)
    (hc : c ∈ cfg.custom_patterns)
    (h1 : custom_root_matches env dir.dropLast c = true)
    (h2 : pattern_matches env c.directory dn
      (normalize_relative_path (dir.drop dir.dropLast.length)) = true)
    (hb : (build_info env fast dir.dropLast .Generic dir).isSome = true) :
    (∃ info r, check_directory_impl env cfg dir fast = some info
      ∧ info.matched_rule = some r ∧ r.source = .Custom)
    ∧ (∀ (m : CleanableMatchers) (bn rp : String) (r : RuleRef),
        m.matched_rule env bn rp = some r →
        pattern_matches env r.pattern bn rp = true
        ∧ ((∃ p ∈ m.builtin_patterns, pattern_matches env p bn rp = true) →
            r.source = .Builtin)
        ∧ (r.source = .Gitignore →
            ∀ p ∈ m.builtin_patterns, pattern_matches env p bn rp = false)) := by
  constructor
  · obtain ⟨info, r, hpp, hmr, hsrc⟩ := process_parent_custom_wins hc h1 h2 hb
    refine ⟨info, r, ?_, hmr, hsrc⟩
    obtain ⟨a, rest, rfl⟩ : ∃ a rest, dir = a :: rest := by
      cases dir with
      | nil => cases hname
      | cons a rest => exact ⟨a, rest, rfl⟩
    simp only [check_directory_impl, hname, List.length_cons, check_loop, hpp]
  · intro m bn rp r hr
    unfold CleanableMatchers.matched_rule at hr
    cases hfb : m.builtin_patterns.find? (fun p => pattern_matches env p bn rp) with
    | some p =>
      rw [hfb] at hr
      cases hr
      exact ⟨by simpa using List.find?_some hfb, fun _ => rfl, fun hs => by cases hs⟩
    | none =>
      rw [hfb] at hr
      have hnone : ∀ p ∈ m.builtin_patterns, pattern_matches env p bn rp = false := by
        intro p hp
        have := List.find?_eq_none.mp hfb p hp
        simpa using this
      cases hfg : m.gitignore_patterns.find? (fun p => pattern_matches env p bn rp) with
      | some p =>
        rw [hfg] at hr
        cases hr
        refine ⟨by simpa using List.find?_some hfg, fun hex => ?_, fun _ => hnone⟩
        obtain ⟨q, hq, hmq⟩ := hex
        rw [hnone q hq] at hmq
        cases hmq
      | none => rw [hfg] at hr; cases hr

/-- Witness for the amended C2: with custom marker and CMakeLists.txt in
the *same* ancestor `h/proj/sub`, the custom pattern wins over the Cpp
builtin `build` pattern. -/
theorem rule_precedence_witness :
    ∃ info r,
      check_directory_impl nearCustomEnv farCustomCfg ["h", "proj", "sub", "build"] true
        = some info
      ∧ info.matched_rule = some r ∧ r.source = .Custom :=
  (rule_precedence nearCustomEnv farCustomCfg ["h", "proj", "sub", "build"] "build"
    true farCustom (by decide) (by decide) (by decide) (by decide) (by decide)).1

/-- Counterexample to C2 as stated: the directory `h/proj/sub/build`
matches the configured custom pattern (whose root predicate holds at
`h/proj`) *and* the Cpp builtin pattern `build` (project detected at
`h/proj/sub`), yet the emitted target is attributed to the Builtin rule,
because the builtin match sits at a nearer ancestor than the custom
pattern's markers. -/
theorem rule_precedence_counterexample :
    farCustom ∈ farCustomCfg.custom_patterns
    ∧ custom_root_matches farCustomEnv ["h", "proj"] farCustom = true
    ∧ pattern_matches farCustomEnv farCustom.directory "build" "sub/build" = true
    ∧ (∃ m, build_matchers farCustomEnv .Cpp ["h", "proj", "sub"] = m
        ∧ m.matches farCustomEnv "build" "build" = true)
    ∧ (check_directory_impl farCustomEnv farCustomCfg ["h", "proj", "sub", "build"] true).map
        (fun i => i.matched_rule.map RuleRef.source) = some (some .Builtin) := by
  exact ⟨by decide, by decide, by decide, ⟨_, rfl, by decide⟩, by decide⟩

/-- The record §8 Scenario A emits for `r/proj/node_modules`. -/
def nodeInfo : ProjectInfo :=
  { root := ["r", "proj"]
    project_type := .NodeJs
    project_name := none
    category := .Deps
    risk_level := .High
    confidence := .High
    matched_rule := some { source := .Builtin, pattern := "node_modules", name := none }
    cleanable_dir := ["r", "proj", "node_modules"]
    size := 5
    size_calculated := true
    last_modified := 100
    in_use := false }

/-- **C3**: for every emitted target carrying a matched rule, risk and
confidence are exactly the fixed policy functions of the rule source and
the category: Gitignore-sourced rules are forced to High risk, any other
source takes the category default (Cache→Low, Build→Medium, Deps→High,
Unknown→Medium), and confidence is Custom/Builtin→High, Heuristic→Medium,
Gitignore→Low. -/
theorem risk_confidence_policy :
    (∀ (env : Env) (cfg : Scanner) (dir : Path) (fast : Bool) (info : ProjectInfo)
        (r : RuleRef),
      check_directory_impl env cfg dir fast = some info →
      info.matched_rule = some r →
      info.risk_level = risk_for_rule r.source info.category
        ∧ info.confidence = confidence_for_rule r.source)
    ∧ (∀ c, risk_for_rule .Gitignore c = .High)
    ∧ (∀ s c, s ≠ RuleSource.Gitignore → risk_for_rule s c = default_risk_level c)
    ∧ default_risk_level .Cache = .Low ∧ default_risk_level .Build = .Medium
    ∧ default_risk_level .Deps = .High ∧ default_risk_level .Unknown = .Medium
    ∧ confidence_for_rule .Custom = .High ∧ confidence_for_rule .Builtin = .High
    ∧ confidence_for_rule .Heuristic = .Medium
    ∧ confidence_for_rule .Gitignore = .Low := by
  refine ⟨?_, fun c => rfl, ?_, rfl, rfl, rfl, rfl, rfl, rfl, rfl, rfl⟩
  · intro env cfg dir fast info r h hr
    obtain ⟨_, _, _, _, _, hpol⟩ := check_directory_impl_emits h
    exact ⟨(hpol r hr).1, (hpol r hr).2.1⟩
  · intro s c hs
    cases s
    · rfl
    · rfl
    · exact absurd rfl hs
    · rfl

/-- Witness for C3 on §8 Scenario A: the emitted `node_modules` target's
High risk and High confidence are the policy values for (Builtin, Deps). -/
theorem risk_confidence_policy_witness :
    nodeInfo.risk_level = risk_for_rule RuleSource.Builtin nodeInfo.category
    ∧ nodeInfo.confidence = confidence_for_rule RuleSource.Builtin :=
  risk_confidence_policy.1 nodeEnv nodeCfg ["r", "proj", "node_modules"] false nodeInfo
    { source := .Builtin, pattern := "node_modules", name := none } (by decide) (by decide)

/-- A Rust project at `A` containing a vendored tree
`A/vendor/bundle/x/target`. -/
def rustVendoredEnv : Env where
  pathExists := fun p => p ∈ [["A", "Cargo.toml"]]
  mtime := fun _ => some 100
  dirSize := fun _ => some 5
  gitignore := fun _ => []
  globMatch := litGlob
  now := 10 ^ 9

/-- Scan rooted at `A` with no filters or custom patterns. -/
def rustVendoredCfg : Scanner where
  root := ["A"]
  min_size := none
  max_age_days := none
  custom_patterns := []
  category_filter := none
  max_risk := none

/-- **C4** (amended): category is the fixed lexical table over the
lowercased basename and relative path, with the `vendor/bundle`
relative-path rule taking precedence over the basename rules: a
`node_modules` basename is always Deps (default risk High); when the
relative path is not `vendor/bundle` or below it, `__pycache__` is Cache
(default risk Low) and `target` matched via a builtin rule is Build with
risk Medium; a basename matching no table entry is Unknown. -/
theorem classification_table :
    (∀ (info : ProjectInfo) (r : RuleRef) (rp : String),
      (apply_matched_rule info r "node_modules" rp).category = .Deps)
    ∧ default_risk_level .Deps = .High
    ∧ (∀ (info : ProjectInfo) (r : RuleRef) (rp : String),
        lowerAscii rp ≠ "vendor/bundle" →
        strStartsWith (lowerAscii rp) "vendor/bundle/" = false →
        (apply_matched_rule info r "__pycache__" rp).category = .Cache)
    ∧ default_risk_level .Cache = .Low
    ∧ (∀ (info : ProjectInfo) (r : RuleRef) (rp : String), r.source = .Builtin →
        lowerAscii rp ≠ "vendor/bundle" →
        strStartsWith (lowerAscii rp) "vendor/bundle/" = false →
        (apply_matched_rule info r "target" rp).category = .Build
        ∧ (apply_matched_rule info r "target" rp).risk_level = .Medium)
    ∧ (∀ bn rp : String,
        lowerAscii bn ∉ (["node_modules", ".venv", "venv", "vendor", "deps", ".bundle",
          "__pycache__", ".pytest_cache", ".mypy_cache", ".tox", ".eggs", ".cache",
          ".turbo", ".parcel-cache", "target", "build", "dist", "out", "_build",
          "deriveddata", ".build", ".next", ".nuxt", "bin", "obj"] : List String) →
        strStartsWith (lowerAscii bn) "cmake-build" = false →
        strEndsWith (lowerAscii bn) ".egg-info" = false →
        lowerAscii rp ≠ "vendor/bundle" →
        strStartsWith (lowerAscii rp) "vendor/bundle/" = false →
        classify_category bn rp = .Unknown) := by
  refine ⟨?_, rfl, ?_, rfl, ?_, ?_⟩
  · intro info r rp
    rw [apply_matched_rule_category]
    simp only [classify_category]
    rw [if_pos (Or.inl (by decide))]
  · intro info r rp hrp1 hrp2
    rw [apply_matched_rule_category]
    simp +decide [classify_category, hrp1, hrp2]
  · intro info r rp hsrc hrp1 hrp2
    constructor
    · rw [apply_matched_rule_category]
      simp +decide [classify_category, hrp1, hrp2]
    · rw [apply_matched_rule_risk_level, hsrc]
      have hcat : classify_category "target" rp = .Build := by
        simp +decide [classify_category, hrp1, hrp2]
      rw [hcat]
      rfl
  · intro bn rp hbn hcb hegg hrp1 hrp2
    simp only [List.mem_cons, List.not_mem_nil, or_false, not_or] at hbn
    obtain ⟨h1, h2, h3, h4, h5, h6, h7, h8, h9, h10, h11, h12, h13, h14, h15, h16, h17,
      h18, h19, h20, h21, h22, h23, h24, h25⟩ := hbn
    simp [classify_category, h1, h2, h3, h4, h5, h6, h7, h8, h9, h10, h11, h12, h13,
      h14, h15, h16, h17, h18, h19, h20, h21, h22, h23, h24, h25, hcb, hegg, hrp1, hrp2]

/-- Witness for the amended C4 at concrete inputs. -/
theorem classification_table_witness :
    (apply_matched_rule pyTop { source := .Builtin, pattern := "target", name := none }
        "target" "proj/target").category = .Build
    ∧ (apply_matched_rule pyTop { source := .Builtin, pattern := "target", name := none }
        "target" "proj/target").risk_level = .Medium
    ∧ classify_category "srcfiles" "a/srcfiles" = .Unknown := by
  have h := classification_table
  refine ⟨(h.2.2.2.2.1 pyTop _ "proj/target" rfl (by decide) (by decide)).1,
    (h.2.2.2.2.1 pyTop _ "proj/target" rfl (by decide) (by decide)).2,
    h.2.2.2.2.2 "srcfiles" "a/srcfiles" (by decide) (by decide) (by decide)
      (by decide) (by decide)⟩

/-- Counterexample to C4 as stated: in a Rust project `A` a directory
`A/vendor/bundle/x/target` with basename `target` is matched via the
builtin `target` rule, yet its category is Deps (risk High, the Deps
default), not Build (risk Medium): the `vendor/bundle` relative-path rule
of `classify_category` fires before the basename table. -/
theorem classification_table_counterexample :
    (["A", "vendor", "bundle", "x", "target"] : Path).getLast? = some "target"
    ∧ (check_directory_impl rustVendoredEnv rustVendoredCfg
        ["A", "vendor", "bundle", "x", "target"] true).map
        (fun i => (i.matched_rule.map RuleRef.source, i.category, i.risk_level))
      = some (some .Builtin, Category.Deps, RiskLevel.High) := by
  exact ⟨by decide, by decide⟩

/-- **C6**: the batch streaming size calculator emits exactly one sized
record per pending target (same position, same directory): on success
`size_calculated = true` with the computed byte total, on timeout or I/O
failure `size_calculated = true` with the `size = 0` sentinel; no error
reaches the caller and no target stays pending. -/
theorem batch_streaming_sizes_every_target (senv : SizeEnv) (timeout : Nat)
    (projects : List ProjectInfo) :
    ((calculate_batch_streaming (batch_compute senv timeout) projects).1.length
        = projects.length)
    ∧ (∀ (i : Nat) (p : ProjectInfo), projects[i]? = some p →
        (calculate_batch_streaming (batch_compute senv timeout) projects).1[i]?
          = some (size_project (batch_compute senv timeout) p))
    ∧ (∀ p : ProjectInfo,
        (size_project (batch_compute senv timeout) p).size_calculated = true
        ∧ (size_project (batch_compute senv timeout) p).cleanable_dir = p.cleanable_dir)
    ∧ (∀ (p : ProjectInfo) (s : Nat),
        batch_compute senv timeout p.cleanable_dir = .ok s →
        (size_project (batch_compute senv timeout) p).size = s)
    ∧ (∀ (p : ProjectInfo) (e : Unit),
        batch_compute senv timeout p.cleanable_dir = .error e →
        (size_project (batch_compute senv timeout) p).size = 0) := by
  refine ⟨by simp [calculate_batch_streaming], ?_, ?_, ?_, ?_⟩
  · intro i p hp
    simp [calculate_batch_streaming, List.getElem?_map, hp]
  · intro p
    exact ⟨size_project_size_calculated _ _, size_project_cleanable_dir _ _⟩
  · intro p s hs
    simp [size_project, hs]
  · intro p e he
    simp [size_project, he]

/-- Witness for C6: a single pending target over an empty directory is
sized successfully to 0 bytes and emitted at its position. -/
theorem batch_streaming_sizes_every_target_witness :
    (calculate_batch_streaming (batch_compute emptySizeEnv 60) [pyTop]).1[0]?
      = some (size_project (batch_compute emptySizeEnv 60) pyTop)
    ∧ (size_project (batch_compute emptySizeEnv 60) pyTop).size = 0 := by
  have h := batch_streaming_sizes_every_target emptySizeEnv 60 [pyTop]
  exact ⟨h.2.1 0 pyTop (by decide), h.2.2.2.1 pyTop 0 rfl⟩

/-- **C7**: with a zero timeout, `calculate_dir_size_with_timeout` errors
immediately — before visiting any entry — and in the batch streaming path
every project is then emitted with `size = 0, size_calculated = true`. -/
theorem zero_timeout_aborts (entries : List FsEntry) (elapsed : Nat → Nat) :
    calculate_dir_size_with_timeout entries elapsed 0 = .error ()
    ∧ (∀ (senv : SizeEnv) (projects : List ProjectInfo) (p : ProjectInfo),
        p ∈ (calculate_batch_streaming (batch_compute senv 0) projects).1 →
        p.size = 0 ∧ p.size_calculated = true) := by
  constructor
  · rfl
  · intro senv projects p hp
    simp only [calculate_batch_streaming] at hp
    rw [List.mem_map] at hp
    obtain ⟨q, hq, rfl⟩ := hp
    constructor
    · simp [size_project, batch_compute, calculate_dir_size_with_timeout]
    · exact size_project_size_calculated _ _

/-- Witness for C7 at a concrete batch of one target. -/
theorem zero_timeout_aborts_witness :
    calculate_dir_size_with_timeout [] (fun _ => 0) 0 = Except.error ()
    ∧ ((size_project (batch_compute emptySizeEnv 0) pyTop).size = 0
        ∧ (size_project (batch_compute emptySizeEnv 0) pyTop).size_calculated = true) := by
  have h := zero_timeout_aborts [] (fun _ => 0)
  exact ⟨h.1, h.2 emptySizeEnv [pyTop] _ (by decide)⟩

/-- **C9**: every pending target of the streaming scan still has
`size_calculated = false`, on such records filtering behaves exactly as if
no `min_size` were configured (the min-size test rejects nothing), and the
filter is not re-applied after sizing: each pending target is emitted from
the streaming queue even when its computed size is below `min_size`. -/
theorem streaming_min_size_not_reapplied (env : Env) (cfg : Scanner) (dirs : List Path)
    (senv : SizeEnv) (m : Nat) (hm : cfg.min_size = some m) :
    (∀ p ∈ scan_pending env cfg dirs, p.size_calculated = false)
    ∧ (∀ info : ProjectInfo, info.size_calculated = false →
        passes_filters env cfg info
          = passes_filters env { cfg with min_size := none } info)
    ∧ (∀ p ∈ scan_pending env cfg dirs,
        (size_project (batch_compute senv 60) p).size < m →
        size_project (batch_compute senv 60) p
          ∈ (scan_with_streaming env cfg dirs senv).2.1) := by
  refine ⟨?_, ?_, ?_⟩
  · intro p hp
    rw [scan_pending, mem_deduplicate] at hp
    obtain ⟨hp1, _⟩ := hp
    rw [mem_collect] at hp1
    obtain ⟨d, _, hcd, _⟩ := hp1
    exact (check_directory_impl_emits hcd).2.1 rfl
  · intro info hsc
    unfold passes_filters
    rw [hm, hsc]
    simp
  · intro p hp _
    simp only [scan_with_streaming, calculate_batch_streaming]
    rw [List.mem_map]
    exact ⟨p, hp, rfl⟩

/-- `nodeCfg` with a 10-byte minimum-size filter. -/
def minSizeCfg : Scanner := { nodeCfg with min_size := some 10 }

/-- The pending record the streaming scan collects for
`r/proj/node_modules`. -/
def pendingNode : ProjectInfo := { nodeInfo with size := 0, size_calculated := false }

/-- Witness for C9: with `min_size = 10`, the pending `node_modules`
target (computed size 0 < 10) is still emitted from the streaming
queue. -/
theorem streaming_min_size_not_reapplied_witness :
    pendingNode.size_calculated = false
    ∧ (size_project (batch_compute emptySizeEnv 60) pendingNode).size < 10
    ∧ size_project (batch_compute emptySizeEnv 60) pendingNode
        ∈ (scan_with_streaming nodeEnv minSizeCfg
            [["r", "proj", "node_modules"]] emptySizeEnv).2.1 := by
  have h := streaming_min_size_not_reapplied nodeEnv minSizeCfg
    [["r", "proj", "node_modules"]] emptySizeEnv 10 rfl
  exact ⟨by decide, by decide, h.2.2 pendingNode (by decide) (by decide)⟩

/-- A pattern with an empty marker list, AnyOf mode. -/
def emptyAnyOf : CustomPattern :=
  { name := "e", directory := "d", marker_files := [], marker_mode := .AnyOf }

/-- A pattern with an empty marker list, AllOf mode. -/
def emptyAllOf : CustomPattern :=
  { name := "e", directory := "d", marker_files := [], marker_mode := .AllOf }

/-- A filesystem where every path exists: AllOf over any marker list would
hold, so a `false` here is due to the emptiness guard alone. -/
def allExistsEnv : Env where
  pathExists := fun _ => true
  mtime := fun _ => some 100
  dirSize := fun _ => some 5
  gitignore := fun _ => []
  globMatch := litGlob
  now := 10 ^ 9

/-- **C10**: a custom pattern with an empty marker-file list never matches
any project root — the emptiness guard runs before the AnyOf/AllOf
evaluation, so even the vacuously-true AllOf is never consulted — and
every Custom-attributed target traces back to a configured pattern whose
marker list is nonempty, so an empty-marker pattern never produces a
target. -/
theorem empty_marker_pattern_never_matches :
    (∀ (env : Env) (root : Path) (c : CustomPattern), c.marker_files = [] →
      custom_root_matches env root c = false)
    ∧ (∀ (env : Env) (cfg : Scanner) (dir : Path) (fast : Bool) (info : ProjectInfo)
        (r : RuleRef),
        check_directory_impl env cfg dir fast = some info →
        info.matched_rule = some r → r.source = .Custom →
        ∃ c ∈ cfg.custom_patterns, c.marker_files ≠ []
          ∧ r.pattern = c.directory ∧ r.name = some c.name) := by
  have hfirst : ∀ (env : Env) (root : Path) (c : CustomPattern), c.marker_files = [] →
      custom_root_matches env root c = false := by
    intro env root c hc
    unfold custom_root_matches
    rw [hc]
    rfl
  refine ⟨hfirst, ?_⟩
  intro env cfg dir fast info r h hr hsrc
  obtain ⟨_, _, _, _, _, hpol⟩ := check_directory_impl_emits h
  obtain ⟨c, hc, hroot, hpat, hname⟩ := (hpol r hr).2.2 hsrc
  refine ⟨c, hc, ?_, hpat, hname⟩
  intro hempty
  rw [hfirst env info.root c hempty] at hroot
  cases hroot

/-- Witness for C10: under the everything-exists filesystem both modes of
an empty-marker pattern still fail the root predicate. -/
theorem empty_marker_pattern_never_matches_witness :
    custom_root_matches allExistsEnv ["p"] emptyAnyOf = false
    ∧ custom_root_matches allExistsEnv ["p"] emptyAllOf = false :=
  ⟨empty_marker_pattern_never_matches.1 allExistsEnv ["p"] emptyAnyOf rfl,
   empty_marker_pattern_never_matches.1 allExistsEnv ["p"] emptyAllOf rfl⟩

end DevClean
